import Mathlib

/-!
Shallow embedding of the catalog / recycle-bin core of `src/contexts/global.tsx`
(repository `api-fox-ui`).

The file embeds, faithfully to the TypeScript source:
* `removeMenuItem`  (lines 78-117): filter of the menu list with a per-removed-item
  recycle enqueue side effect, modelled as a left fold over the menu;
* `updateMenuItem`  (lines 119-133): map over the menu list with a spread-merge;
* `restoreMenuItem` (lines 135-163): filter of a recycle-category list with a
  per-matching-record catalog reinsert side effect, modelled as a left fold;
* `moveMenuItem`    (lines 165-210): a reduce that locates drag/drop entries and
  indices, followed by an optional reparent and a `moveArrayItem` relocation.

Helpers imported by the source from modules that are not part of the source tree
(`getCatalogType`, `isMenuFolder`, `moveArrayItem`, the `CatalogType` enum, the
`ApiMenuData` / recycle data shapes, the `creator` constant) are modelled from the
specification; each such definition carries a doc comment saying so.  `nanoid` is
modelled by an explicit id-generator function together with a call counter.
-/

/-- Modelled from the spec: `EntryKind` (the `type` field of `ApiMenuData`,
declared in a module outside the source tree) is a closed set of leaf kinds
(HTTP request, schema, plain request, markdown document) and folder kinds,
plus an overview kind outside the recycle-eligible categories. -/
inductive EntryKind where
  | http
  | schema
  | request
  | markdown
  | httpFolder
  | schemaFolder
  | requestFolder
  | markdownFolder
  | overview
  deriving DecidableEq, Repr

/-- Modelled from the spec: the `CatalogType` enum (declared in a module outside
the source tree); the source file uses its `Http`, `Schema`, `Request` and
`Markdown` members. -/
inductive CatalogType where
  | chttp
  | cschema
  | crequest
  | cmarkdown
  | coverview
  deriving DecidableEq, Repr

/-- The `RecycleCatalogType` keys of the recycle store: the three
recycle-eligible categories. -/
inductive RecycleCatalogType where
  | http
  | schema
  | request
  deriving DecidableEq, Repr

/-- Modelled from the spec: `isMenuFolder` (imported from a helpers module not
in the source tree) — folders are identified by a predicate on the entry kind. -/
def isMenuFolder : EntryKind → Bool
  | .httpFolder => true
  | .schemaFolder => true
  | .requestFolder => true
  | .markdownFolder => true
  | _ => false

/-- Modelled from the spec: `getCatalogType` (imported from a helpers module not
in the source tree) maps an entry kind to a catalog type; folder kinds and the
overview kind map outside the three recycle-eligible leaf categories and the
markdown category, so they are never recycle-eligible. -/
def getCatalogType : EntryKind → CatalogType
  | .http => .chttp
  | .schema => .cschema
  | .request => .crequest
  | .markdown => .cmarkdown
  | _ => .coverview

/-- The JS-object payload of an entry (`data` field), modelled as an association
list observed through first-match lookup. -/
abbrev Payload : Type := List (String × String)

/-- First-match lookup in a payload: the observation function for the JS-object
semantics of `Payload`. -/
def plookup (p : Payload) (k : String) : Option String :=
  (List.find? (fun kv => kv.1 == k) p).map (fun kv => kv.2)

/-- JS object spread `\x7b...base, ...inc\x7d`: keys of `inc` win.  Under
first-match lookup this is prepending the incoming pairs. -/
def pmerge (base inc : Payload) : Payload :=
  (inc : List (String × String)) ++ base

/-- JS object-literal key override `\x7b..., k: v\x7d`: under first-match lookup
this is prepending the pair. -/
def pset (p : Payload) (k v : String) : Payload :=
  (k, v) :: (p : List (String × String))

/-- Modelled from the spec: `ApiMenuData` (declared in a component module not in
the source tree) — the catalog entry: unique id, optional parent link, kind,
name and payload. -/
structure ApiMenuData where
  id : String
  parentId : Option String
  type : EntryKind
  name : String
  data : Payload
  deriving DecidableEq

/-- Modelled from the spec: `RecycleDataItem` (declared in a types module not in
the source tree) — generated record id, a fixed human expiry label, a creator
and a full value snapshot of the deleted entry. -/
structure RecycleDataItem where
  id : String
  expiredAt : String
  creator : String
  deletedItem : ApiMenuData
  deriving DecidableEq

/-- Modelled from the spec: the recycle store (`RecycleData`, declared in a
types module not in the source tree) keyed by the three recycle-eligible
categories, each holding a list of records. -/
structure RecycleData where
  http : List RecycleDataItem
  schema : List RecycleDataItem
  request : List RecycleDataItem
  deriving DecidableEq

/-- `draft[catalogType].list` read access. -/
def RecycleData.getL (d : RecycleData) : RecycleCatalogType → List RecycleDataItem
  | .http => d.http
  | .schema => d.schema
  | .request => d.request

/-- `draft[catalogType].list = ...` write access. -/
def RecycleData.setL (d : RecycleData) : RecycleCatalogType → List RecycleDataItem → RecycleData
  | .http, l => { d with http := l }
  | .schema, l => { d with schema := l }
  | .request, l => { d with request := l }

/-- Modelled from the spec: the `creator` constant imported from the remote-data
module (not in the source tree). -/
def creatorName : String := "creator"

/-- The combined state of the two stores; `nextId` counts the `nanoid` calls so
that record-id generation can be modelled by an explicit generator function. -/
structure GlobalState where
  menu : List ApiMenuData
  recycle : RecycleData
  nextId : Nat
  deriving DecidableEq

/-- `addMenuItem` (source lines 74-76): append the new entry to the menu list. -/
def addMenuItem (x : ApiMenuData) (s : GlobalState) : GlobalState :=
  { s with menu := s.menu ++ [x] }

/-- Source lines 87-97: classify a removed entry's kind — `getCatalogType`,
remap `Markdown` to `Http`, then keep only the three recycle-eligible
categories. -/
def routeCategory (t : EntryKind) : Option RecycleCatalogType :=
  let ct := getCatalogType t
  let ct := if ct = CatalogType.cmarkdown then CatalogType.chttp else ct
  match ct with
  | CatalogType.chttp => some .http
  | CatalogType.cschema => some .schema
  | CatalogType.crequest => some .request
  | _ => none

/-- Source line 81: an entry is removed when its id or its parent id equals the
removal argument. -/
def shouldRemove (rid : String) (x : ApiMenuData) : Bool :=
  x.id == rid || x.parentId == some rid

/-- Source lines 84-111: the recycle update performed for one removed entry.
Note that, as in the source (line 100), the duplicate check compares existing
records' `deletedItem.id` against the *removal argument* `rid`, not against the
removed entry's own id. -/
def enqueueStep (g : Nat → String) (rid : String) (p : RecycleData × Nat)
    (item : ApiMenuData) : RecycleData × Nat :=
  match routeCategory item.type with
  | some rc =>
      let l := p.1.getL rc
      let already := l.any (fun r => r.deletedItem.id == rid)
      if already then p
      else (p.1.setL rc ({ id := g p.2, expiredAt := "30天", creator := creatorName,
                           deletedItem := item } :: l), p.2 + 1)
  | none => p

/-- One step of `removeMenuItem`'s filter-with-side-effects (source lines
79-116): a removed entry triggers the recycle update and is dropped from the
menu; a kept entry is appended to the accumulated menu. -/
def removeStep (g : Nat → String) (rid : String) (acc : GlobalState)
    (item : ApiMenuData) : GlobalState :=
  if shouldRemove rid item then
    let p := enqueueStep g rid (acc.recycle, acc.nextId) item
    { acc with recycle := p.1, nextId := p.2 }
  else
    { acc with menu := acc.menu ++ [item] }

/-- `removeMenuItem` (source lines 78-117): filter the menu list, enqueueing a
recycle record for each removed entry in list order. -/
def removeMenuItem (g : Nat → String) (rid : String) (s : GlobalState) : GlobalState :=
  s.menu.foldl (removeStep g rid) { s with menu := [] }

/-- The update argument `Partial ApiMenuData  and  Pick ApiMenuData id`: every
field optional except the id; an absent field is `none`. -/
structure UpdateInput where
  id : String
  parentId : Option (Option String) := none
  type : Option EntryKind := none
  name : Option String := none
  data : Option Payload := none

/-- JS `a || b` on strings: the empty string is falsy. -/
def jsOr (a : Option String) (b : String) : String :=
  match a with
  | some s => if s = "" then b else s
  | none => b

/-- Source lines 123-127: `\x7b ...item, ...rest, data: \x7b ...item.data,
...rest.data, name: rest.name || item.name \x7d \x7d`.  The id is destructured
out of `rest`, so the merged entry keeps the matched entry's id. -/
def mergeItem (item : ApiMenuData) (u : UpdateInput) : ApiMenuData :=
  { id := item.id
    parentId := (u.parentId).getD item.parentId
    type := (u.type).getD item.type
    name := (u.name).getD item.name
    data := pset (pmerge item.data ((u.data).getD [])) "name" (jsOr u.name item.name) }

/-- `updateMenuItem` (source lines 119-133): map over the menu list, merging the
update into the entry with the matching id. -/
def updateMenuItem (u : UpdateInput) (list : List ApiMenuData) : List ApiMenuData :=
  list.map (fun item => if item.id = u.id then mergeItem item u else item)

/-- Source lines 147-155: the catalog reinsert performed for one restored
record — a no-op when an entry with the snapshot's id is already live,
otherwise an append at the end. -/
def reinsert (menu : List ApiMenuData) (r : RecycleDataItem) : List ApiMenuData :=
  if menu.any (fun it => it.id == r.deletedItem.id) then menu
  else menu ++ [r.deletedItem]

/-- One step of `restoreMenuItem`'s filter-with-side-effects (source lines
141-159): a matching record triggers the catalog reinsert and is dropped from
the category list; other records are kept. -/
def restoreStep (restoreId : String) (acc : List RecycleDataItem × List ApiMenuData)
    (li : RecycleDataItem) : List RecycleDataItem × List ApiMenuData :=
  if li.id = restoreId then
    (acc.1, reinsert acc.2 li)
  else
    (acc.1 ++ [li], acc.2)

/-- `restoreMenuItem` (source lines 135-163): filter the chosen recycle-category
list, reinserting each matching record's snapshot into the catalog in order. -/
def restoreMenuItem (restoreId : String) (ct : RecycleCatalogType)
    (s : GlobalState) : GlobalState :=
  let p := (s.recycle.getL ct).foldl (restoreStep restoreId) ([], s.menu)
  { s with menu := p.2, recycle := s.recycle.setL ct p.1 }

/-- The accumulator of `moveMenuItem`'s reduce (source lines 167-185). -/
structure MoveAcc where
  dragMenu : Option ApiMenuData
  dropMenu : Option ApiMenuData
  dragMenuIdx : Option Nat
  dropMenuIdx : Option Nat
  deriving DecidableEq

/-- One step of the reduce (source lines 173-183): the drag match takes
precedence over the drop match (`else if`). -/
def moveAccStep (dragKey dropKey : String) (item : ApiMenuData) (idx : Nat)
    (acc : MoveAcc) : MoveAcc :=
  if item.id = dragKey then
    { acc with dragMenu := some item, dragMenuIdx := some idx }
  else if item.id = dropKey then
    { acc with dropMenu := some item, dropMenuIdx := some idx }
  else acc

/-- The reduce of source lines 167-185, carrying the running index. -/
def findFrom (dragKey dropKey : String) : Nat → MoveAcc → List ApiMenuData → MoveAcc
  | _, acc, [] => acc
  | i, acc, x :: xs => findFrom dragKey dropKey (i + 1) (moveAccStep dragKey dropKey x i acc) xs

/-- Modelled from the spec: `moveArrayItem` (imported from a utils module not in
the source tree) — positional relocation is a remove-then-reinsert, with the
target index computed against the list before removal, so the reinsertion index
is one less when the removal index precedes the target index. -/
def moveArrayItem {α : Type} (l : List α) (i j : Nat) : List α :=
  match l.get? i with
  | some x => (l.eraseIdx i).insertIdx (if i < j then j - 1 else j) x
  | none => l

/-- `moveMenuItem` (source lines 165-210).  `dropPosition` is the raw value of
the source (`0` inside, `-1` top, `1` bottom); `draft[dragMenuIdx].parentId = v`
is the in-place update `List.modifyNth`. -/
def moveMenuItem (dragKey dropKey : String) (dropPosition : Int)
    (list : List ApiMenuData) : List ApiMenuData :=
  match findFrom dragKey dropKey 0 ⟨none, none, none, none⟩ list with
  | ⟨some dragMenu, some dropMenu, some dragMenuIdx, some dropMenuIdx⟩ =>
      if isMenuFolder dropMenu.type ∧ dropPosition = 0 then
        moveArrayItem
          (List.modify (fun it => { it with parentId := some dropMenu.id }) dragMenuIdx list)
          dragMenuIdx (dropMenuIdx + 1)
      else if dropPosition = 1 then
        if dragMenu.parentId ≠ dropMenu.parentId then
          moveArrayItem
            (List.modify (fun it => { it with parentId := dropMenu.parentId }) dragMenuIdx list)
            dragMenuIdx (dropMenuIdx + 1)
        else
          moveArrayItem list dragMenuIdx (dropMenuIdx + 1)
      else list
  | _ => list

/-- Concrete entries for the drag/drop scenario (spec Scenario B). -/
def itemA : ApiMenuData := { id := "a", parentId := none, type := .http, name := "a", data := [] }

def itemB : ApiMenuData := { id := "b", parentId := none, type := .http, name := "b", data := [] }

def itemC : ApiMenuData := { id := "c", parentId := none, type := .http, name := "c", data := [] }

/-- Concrete entries for spec Scenario A. -/
def folder1 : ApiMenuData :=
  { id := "1", parentId := none, type := .httpFolder, name := "f", data := [] }

def http2 : ApiMenuData :=
  { id := "2", parentId := some "1", type := .http, name := "h", data := [] }

/-- A concrete record-id generator for closed scenarios. -/
def gen0 : Nat → String := fun n => String.append "r" (toString n)

/-- A concrete record-id generator that is provably injective. -/
def genRep : Nat → String := fun n => String.mk (List.replicate n 'a')

/-- The empty recycle store. -/
def emptyRecycle : RecycleData := { http := [], schema := [], request := [] }

def stateA : GlobalState := { menu := [folder1, http2], recycle := emptyRecycle, nextId := 0 }

/-- Concrete entries for the duplicate-recycle-record scenario: a folder and its
direct child. -/
def folderP : ApiMenuData :=
  { id := "p", parentId := none, type := .httpFolder, name := "p", data := [] }

def httpC : ApiMenuData :=
  { id := "c", parentId := some "p", type := .http, name := "c", data := [] }

/-- The empty global state (both stores empty). -/
def state0 : GlobalState := { menu := [], recycle := emptyRecycle, nextId := 0 }

/-- Concrete entries for the restore-without-reinsert scenario: a live entry and
a recycled snapshot sharing its id but differing in the other fields. -/
def liveX : ApiMenuData :=
  { id := "x", parentId := none, type := .http, name := "live", data := [] }

def ghostX : ApiMenuData :=
  { id := "x", parentId := none, type := .http, name := "ghost", data := [] }

def recR1 : RecycleDataItem :=
  { id := "r1", expiredAt := "30天", creator := creatorName, deletedItem := ghostX }

def stateC : GlobalState :=
  { menu := [liveX], recycle := { http := [recR1], schema := [], request := [] }, nextId := 0 }

/-- A concrete update argument: no top-level name, payload update touching both
the name key and a fresh key. -/
def upd0 : UpdateInput :=
  { id := "a", data := some [("name", "ZZ"), ("k", "v")] }

/-! ### Positional list lemmas -/

theorem get?_append_length {α : Type} (P R : List α) (y : α) :
    (P ++ y :: R).get? P.length = some y := by
  induction P with
  | nil => rfl
  | cons a P ih => simpa using ih

theorem eraseIdx_append_length {α : Type} (P R : List α) (y : α) :
    (P ++ y :: R).eraseIdx P.length = P ++ R := by
  induction P with
  | nil => rfl
  | cons a P ih => simpa [List.eraseIdx] using ih

theorem modify_append_length (f : ApiMenuData → ApiMenuData) (P R : List ApiMenuData)
    (y : ApiMenuData) : List.modify f P.length (P ++ y :: R) = P ++ f y :: R := by
  induction P with
  | nil => rfl
  | cons a P ih => simpa [List.modify] using ih

theorem insertIdx_append_length {α : Type} (P R : List α) (y : α) :
    (P ++ R).insertIdx P.length y = P ++ y :: R := by
  induction P with
  | nil => rfl
  | cons a P ih => simpa [List.insertIdx] using ih

theorem parentId_eta (x : ApiMenuData) : { x with parentId := x.parentId } = x := rfl

/-! ### Lemmas about the drag/drop lookup reduce -/

theorem findFrom_append (dk pk : String) (P Q : List ApiMenuData) (i : Nat) (acc : MoveAcc) :
    findFrom dk pk i acc (P ++ Q)
      = findFrom dk pk (i + P.length) (findFrom dk pk i acc P) Q := by
  induction P generalizing i acc with
  | nil => simp [findFrom]
  | cons x xs ih =>
      simp only [List.cons_append, findFrom, List.length_cons, List.append_eq]
      rw [ih]
      have h : i + 1 + xs.length = i + (xs.length + 1) := by omega
      rw [h]

theorem findFrom_no_match (dk pk : String) (P : List ApiMenuData) (i : Nat) (acc : MoveAcc)
    (h : ∀ x ∈ P, x.id ≠ dk ∧ x.id ≠ pk) : findFrom dk pk i acc P = acc := by
  induction P generalizing i acc with
  | nil => rfl
  | cons x xs ih =>
      have hx := h x (by simp)
      simp only [findFrom, moveAccStep, if_neg hx.1, if_neg hx.2]
      exact ih _ _ (fun y hy => h y (by simp [hy]))

theorem findFrom_self_drop (dk : String) (P : List ApiMenuData) (i : Nat) (acc : MoveAcc) :
    (findFrom dk dk i acc P).dropMenu = acc.dropMenu
      ∧ (findFrom dk dk i acc P).dropMenuIdx = acc.dropMenuIdx := by
  induction P generalizing i acc with
  | nil => exact ⟨rfl, rfl⟩
  | cons x xs ih =>
      by_cases hx : x.id = dk
      · simp only [findFrom, moveAccStep, if_pos hx]
        simpa using ih (i + 1) { acc with dragMenu := some x, dragMenuIdx := some i }
      · simp only [findFrom, moveAccStep, if_neg hx]
        exact ih _ _

theorem findFrom_drag_none (dk pk : String) (P : List ApiMenuData) (i : Nat) (acc : MoveAcc)
    (h : ∀ x ∈ P, x.id ≠ dk) : (findFrom dk pk i acc P).dragMenu = acc.dragMenu := by
  induction P generalizing i acc with
  | nil => rfl
  | cons x xs ih =>
      have hx := h x (by simp)
      have hrest : ∀ y ∈ xs, y.id ≠ dk := fun y hy => h y (by simp [hy])
      by_cases hp : x.id = pk
      · simp only [findFrom, moveAccStep, if_neg hx, if_pos hp]
        simpa using ih (i + 1) { acc with dropMenu := some x, dropMenuIdx := some i } hrest
      · simp only [findFrom, moveAccStep, if_neg hx, if_neg hp]
        exact ih _ _ hrest

theorem findFrom_drop_none (dk pk : String) (P : List ApiMenuData) (i : Nat) (acc : MoveAcc)
    (h : ∀ x ∈ P, x.id ≠ pk) : (findFrom dk pk i acc P).dropMenu = acc.dropMenu := by
  induction P generalizing i acc with
  | nil => rfl
  | cons x xs ih =>
      have hx := h x (by simp)
      have hrest : ∀ y ∈ xs, y.id ≠ pk := fun y hy => h y (by simp [hy])
      by_cases hd : x.id = dk
      · simp only [findFrom, moveAccStep, if_pos hd]
        simpa using ih (i + 1) { acc with dragMenu := some x, dragMenuIdx := some i } hrest
      · simp only [findFrom, moveAccStep, if_neg hd, if_neg hx]
        exact ih _ _ hrest

theorem findFrom_drop_mem (dk pk : String) (P : List ApiMenuData) (i : Nat) (acc : MoveAcc)
    (m : ApiMenuData) (h : (findFrom dk pk i acc P).dropMenu = some m) :
    acc.dropMenu = some m ∨ (m ∈ P ∧ m.id = pk) := by
  induction P generalizing i acc with
  | nil => exact Or.inl h
  | cons x xs ih =>
      by_cases hd : x.id = dk
      · simp only [findFrom, moveAccStep, if_pos hd] at h
        rcases ih _ _ h with h' | h'
        · exact Or.inl h'
        · exact Or.inr ⟨by simp [h'.1], h'.2⟩
      · by_cases hp : x.id = pk
        · simp only [findFrom, moveAccStep, if_neg hd, if_pos hp] at h
          rcases ih _ _ h with h' | h'
          · simp only at h'
            exact Or.inr ⟨by simp [← Option.some_inj.mp h'], by
              rw [← Option.some_inj.mp h']; exact hp⟩
          · exact Or.inr ⟨by simp [h'.1], h'.2⟩
        · simp only [findFrom, moveAccStep, if_neg hd, if_neg hp] at h
          rcases ih _ _ h with h' | h'
          · exact Or.inl h'
          · exact Or.inr ⟨by simp [h'.1], h'.2⟩

theorem findFrom_decomp1 (dk pk : String) (A B₁ B₂ : List ApiMenuData) (drag drop : ApiMenuData)
    (hA : ∀ x ∈ A, x.id ≠ dk ∧ x.id ≠ pk)
    (hB₁ : ∀ x ∈ B₁, x.id ≠ dk ∧ x.id ≠ pk)
    (hB₂ : ∀ x ∈ B₂, x.id ≠ dk ∧ x.id ≠ pk)
    (hdrag : drag.id = dk) (hdrop : drop.id = pk) (hne : drop.id ≠ dk) :
    findFrom dk pk 0 ⟨none, none, none, none⟩ (A ++ drag :: (B₁ ++ drop :: B₂))
      = ⟨some drag, some drop, some A.length, some (A.length + B₁.length + 1)⟩ := by
  rw [findFrom_append, findFrom_no_match dk pk A 0 _ hA]
  simp only [findFrom, moveAccStep, if_pos hdrag]
  rw [findFrom_append, findFrom_no_match dk pk B₁ _ _ hB₁]
  simp only [findFrom, moveAccStep, if_neg hne, if_pos hdrop]
  rw [findFrom_no_match dk pk B₂ _ _ hB₂]
  simp only [Nat.zero_add]
  rw [show A.length + 1 + B₁.length = A.length + B₁.length + 1 from by omega]

theorem findFrom_decomp2 (dk pk : String) (A B₁ B₂ : List ApiMenuData) (drag drop : ApiMenuData)
    (hA : ∀ x ∈ A, x.id ≠ dk ∧ x.id ≠ pk)
    (hB₁ : ∀ x ∈ B₁, x.id ≠ dk ∧ x.id ≠ pk)
    (hB₂ : ∀ x ∈ B₂, x.id ≠ dk ∧ x.id ≠ pk)
    (hdrag : drag.id = dk) (hdrop : drop.id = pk) (hne : drop.id ≠ dk) :
    findFrom dk pk 0 ⟨none, none, none, none⟩ (A ++ drop :: (B₁ ++ drag :: B₂))
      = ⟨some drag, some drop, some (A.length + B₁.length + 1), some A.length⟩ := by
  rw [findFrom_append, findFrom_no_match dk pk A 0 _ hA]
  simp only [findFrom, moveAccStep, if_neg hne, if_pos hdrop]
  rw [findFrom_append, findFrom_no_match dk pk B₁ _ _ hB₁]
  simp only [findFrom, moveAccStep, if_pos hdrag]
  rw [findFrom_no_match dk pk B₂ _ _ hB₂]
  simp only [Nat.zero_add]
  rw [show A.length + 1 + B₁.length = A.length + B₁.length + 1 from by omega]

theorem moveArrayItem_eq_of_get? {α : Type} (l : List α) (i j : Nat) (x : α)
    (h : l.get? i = some x) :
    moveArrayItem l i j = (l.eraseIdx i).insertIdx (if i < j then j - 1 else j) x := by
  unfold moveArrayItem
  rw [h]

theorem moveArrayItem_fwd {α : Type} (A B₁ B₂ : List α) (y d : α) :
    moveArrayItem (A ++ y :: (B₁ ++ d :: B₂)) A.length (A.length + B₁.length + 2)
      = A ++ (B₁ ++ d :: y :: B₂) := by
  rw [moveArrayItem_eq_of_get? _ _ _ y (get?_append_length A (B₁ ++ d :: B₂) y),
    eraseIdx_append_length, if_pos (by omega)]
  have e1 : A ++ (B₁ ++ d :: B₂) = ((A ++ B₁) ++ [d]) ++ B₂ := by simp
  have e2 : A.length + B₁.length + 2 - 1 = ((A ++ B₁) ++ [d]).length := by
    simp [List.length_append]
    omega
  rw [e1, e2, insertIdx_append_length]
  simp

theorem moveArrayItem_bwd {α : Type} (A B₁ B₂ : List α) (d y : α) :
    moveArrayItem (A ++ d :: (B₁ ++ y :: B₂)) (A.length + B₁.length + 1) (A.length + 1)
      = A ++ d :: y :: (B₁ ++ B₂) := by
  have e1 : A ++ d :: (B₁ ++ y :: B₂) = (A ++ d :: B₁) ++ y :: B₂ := by simp
  have e2 : A.length + B₁.length + 1 = (A ++ d :: B₁).length := by
    simp [List.length_append]
    omega
  rw [e1, e2,
    moveArrayItem_eq_of_get? _ _ _ y (get?_append_length (A ++ d :: B₁) B₂ y),
    eraseIdx_append_length,
    if_neg (by simp only [List.length_append, List.length_cons]; omega)]
  have e3 : (A ++ d :: B₁) ++ B₂ = (A ++ [d]) ++ (B₁ ++ B₂) := by simp
  have e4 : A.length + 1 = (A ++ [d]).length := by simp
  rw [e3, e4, insertIdx_append_length]
  simp

theorem nodup_decomp_ids (P Q : List ApiMenuData) (x : ApiMenuData)
    (h : ((P ++ x :: Q).map ApiMenuData.id).Nodup) :
    ∀ y, y ∈ P ∨ y ∈ Q → y.id ≠ x.id := by
  rw [List.map_append, List.map_cons, List.nodup_append] at h
  rcases h with ⟨-, hcons, hdisj⟩
  rcases List.nodup_cons.mp hcons with ⟨hnotin, -⟩
  intro y hy heq
  rcases hy with hy | hy
  · exact hdisj (List.mem_map.mpr ⟨y, hy, rfl⟩) (by simp [heq])
  · exact hnotin (by rw [← heq]; exact List.mem_map.mpr ⟨y, hy, rfl⟩)

theorem moveAfter_case1 (dk pk : String) (A B₁ B₂ : List ApiMenuData) (drag drop : ApiMenuData)
    (hA : ∀ x ∈ A, x.id ≠ dk ∧ x.id ≠ pk)
    (hB₁ : ∀ x ∈ B₁, x.id ≠ dk ∧ x.id ≠ pk)
    (hB₂ : ∀ x ∈ B₂, x.id ≠ dk ∧ x.id ≠ pk)
    (hdrag : drag.id = dk) (hdrop : drop.id = pk) (hne : drop.id ≠ dk) :
    moveMenuItem dk pk 1 (A ++ drag :: (B₁ ++ drop :: B₂))
      = A ++ (B₁ ++ drop :: { drag with parentId := drop.parentId } :: B₂) := by
  unfold moveMenuItem
  rw [findFrom_decomp1 dk pk A B₁ B₂ drag drop hA hB₁ hB₂ hdrag hdrop hne]
  dsimp only
  rw [if_neg (by simp), if_pos rfl]
  by_cases hpar : drag.parentId = drop.parentId
  · rw [if_neg (by simp [hpar])]
    rw [show A.length + B₁.length + 1 + 1 = A.length + B₁.length + 2 from by omega,
      moveArrayItem_fwd]
    rw [← hpar, parentId_eta]
  · rw [if_pos hpar, modify_append_length]
    rw [show A.length + B₁.length + 1 + 1 = A.length + B₁.length + 2 from by omega,
      moveArrayItem_fwd]

theorem moveAfter_case2 (dk pk : String) (A B₁ B₂ : List ApiMenuData) (drag drop : ApiMenuData)
    (hA : ∀ x ∈ A, x.id ≠ dk ∧ x.id ≠ pk)
    (hB₁ : ∀ x ∈ B₁, x.id ≠ dk ∧ x.id ≠ pk)
    (hB₂ : ∀ x ∈ B₂, x.id ≠ dk ∧ x.id ≠ pk)
    (hdrag : drag.id = dk) (hdrop : drop.id = pk) (hne : drop.id ≠ dk) :
    moveMenuItem dk pk 1 (A ++ drop :: (B₁ ++ drag :: B₂))
      = A ++ drop :: { drag with parentId := drop.parentId } :: (B₁ ++ B₂) := by
  unfold moveMenuItem
  rw [findFrom_decomp2 dk pk A B₁ B₂ drag drop hA hB₁ hB₂ hdrag hdrop hne]
  dsimp only
  rw [if_neg (by simp), if_pos rfl]
  by_cases hpar : drag.parentId = drop.parentId
  · rw [if_neg (by simp [hpar])]
    rw [show A ++ drop :: (B₁ ++ drag :: B₂) = A ++ drop :: (B₁ ++ drag :: B₂) from rfl,
      moveArrayItem_bwd]
    rw [← hpar, parentId_eta]
  · rw [if_pos hpar]
    have e1 : A ++ drop :: (B₁ ++ drag :: B₂) = (A ++ drop :: B₁) ++ drag :: B₂ := by simp
    have e2 : A.length + B₁.length + 1 = (A ++ drop :: B₁).length := by
      simp [List.length_append]
      omega
    rw [e1, e2, modify_append_length]
    have e3 : (A ++ drop :: B₁) ++ { drag with parentId := drop.parentId } :: B₂
        = A ++ drop :: (B₁ ++ { drag with parentId := drop.parentId } :: B₂) := by simp
    rw [e3, ← e2, moveArrayItem_bwd]

theorem filter_ne_id (dk : String) (L : List ApiMenuData) (h : ∀ x ∈ L, x.id ≠ dk) :
    L.filter (fun e => !(e.id == dk)) = L :=
  List.filter_eq_self.mpr (fun a ha => by simp [h a ha])

/-- C1: for a catalog containing distinct entries with ids `dk` (dragged) and
`pk` (drop target) — in either relative order — `moveMenuItem dk pk 1` (drop
position `after`) sets the dragged entry's parent id to the drop target's
parent id (a pure position change when they already coincide) and relocates the
dragged entry so that it immediately follows the drop target, all other entries
keeping their relative order; in particular Scenario B:
`moveMenuItem "a" "c" 1 [a, b, c] = [b, c, a]`. -/
theorem moveEntry_after_correct (dk pk : String) (l A B₁ B₂ : List ApiMenuData)
    (drag drop : ApiMenuData)
    (hdec : l = A ++ drag :: (B₁ ++ drop :: B₂) ∨ l = A ++ drop :: (B₁ ++ drag :: B₂))
    (hnd : (l.map ApiMenuData.id).Nodup)
    (hdrag : drag.id = dk) (hdrop : drop.id = pk) :
    (∃ X Y, moveMenuItem dk pk 1 l
          = X ++ drop :: { drag with parentId := drop.parentId } :: Y
        ∧ X ++ drop :: Y = l.filter (fun e => !(e.id == dk)))
      ∧ moveMenuItem "a" "c" 1 [itemA, itemB, itemC] = [itemB, itemC, itemA] := by
  refine ⟨?_, by decide⟩
  rcases hdec with hdec | hdec
  · subst hdec
    have hd1 := nodup_decomp_ids A (B₁ ++ drop :: B₂) drag hnd
    have hnd' := hnd
    rw [show A ++ drag :: (B₁ ++ drop :: B₂) = (A ++ drag :: B₁) ++ drop :: B₂ from by simp]
      at hnd'
    have hd2 := nodup_decomp_ids (A ++ drag :: B₁) B₂ drop hnd'
    have hA : ∀ x ∈ A, x.id ≠ dk ∧ x.id ≠ pk := fun x hx =>
      ⟨by rw [← hdrag]; exact hd1 x (Or.inl hx),
       by rw [← hdrop]; exact hd2 x (Or.inl (by simp [hx]))⟩
    have hB₁ : ∀ x ∈ B₁, x.id ≠ dk ∧ x.id ≠ pk := fun x hx =>
      ⟨by rw [← hdrag]; exact hd1 x (Or.inr (by simp [hx])),
       by rw [← hdrop]; exact hd2 x (Or.inl (by simp [hx]))⟩
    have hB₂ : ∀ x ∈ B₂, x.id ≠ dk ∧ x.id ≠ pk := fun x hx =>
      ⟨by rw [← hdrag]; exact hd1 x (Or.inr (by simp [hx])),
       by rw [← hdrop]; exact hd2 x (Or.inr hx)⟩
    have hne : drop.id ≠ dk := by rw [← hdrag]; exact hd1 drop (Or.inr (by simp))
    refine ⟨A ++ B₁, B₂, ?_, ?_⟩
    · rw [moveAfter_case1 dk pk A B₁ B₂ drag drop hA hB₁ hB₂ hdrag hdrop hne]
      simp
    · rw [List.filter_append, filter_ne_id dk A (fun x hx => (hA x hx).1),
        List.filter_cons_of_neg (by simp [hdrag]),
        List.filter_append, filter_ne_id dk B₁ (fun x hx => (hB₁ x hx).1),
        List.filter_cons_of_pos (by simp [hne]),
        filter_ne_id dk B₂ (fun x hx => (hB₂ x hx).1)]
      simp
  · subst hdec
    have hd1 := nodup_decomp_ids A (B₁ ++ drag :: B₂) drop hnd
    have hnd' := hnd
    rw [show A ++ drop :: (B₁ ++ drag :: B₂) = (A ++ drop :: B₁) ++ drag :: B₂ from by simp]
      at hnd'
    have hd2 := nodup_decomp_ids (A ++ drop :: B₁) B₂ drag hnd'
    have hA : ∀ x ∈ A, x.id ≠ dk ∧ x.id ≠ pk := fun x hx =>
      ⟨by rw [← hdrag]; exact hd2 x (Or.inl (by simp [hx])),
       by rw [← hdrop]; exact hd1 x (Or.inl hx)⟩
    have hB₁ : ∀ x ∈ B₁, x.id ≠ dk ∧ x.id ≠ pk := fun x hx =>
      ⟨by rw [← hdrag]; exact hd2 x (Or.inl (by simp [hx])),
       by rw [← hdrop]; exact hd1 x (Or.inr (by simp [hx]))⟩
    have hB₂ : ∀ x ∈ B₂, x.id ≠ dk ∧ x.id ≠ pk := fun x hx =>
      ⟨by rw [← hdrag]; exact hd2 x (Or.inr hx),
       by rw [← hdrop]; exact hd1 x (Or.inr (by simp [hx]))⟩
    have hne : drop.id ≠ dk := by
      rw [← hdrag]
      exact (hd1 drag (Or.inr (by simp))).symm
    refine ⟨A, B₁ ++ B₂, ?_, ?_⟩
    · rw [moveAfter_case2 dk pk A B₁ B₂ drag drop hA hB₁ hB₂ hdrag hdrop hne]
    · rw [List.filter_append, filter_ne_id dk A (fun x hx => (hA x hx).1),
        List.filter_cons_of_pos (by simp [hne]),
        List.filter_append, filter_ne_id dk B₁ (fun x hx => (hB₁ x hx).1),
        List.filter_cons_of_neg (by simp [hdrag]),
        filter_ne_id dk B₂ (fun x hx => (hB₂ x hx).1)]

/-- Witness for `moveEntry_after_correct`: Scenario B discharged concretely. -/
theorem moveEntry_after_correct_witness :
    (∃ X Y, moveMenuItem "a" "c" 1 [itemA, itemB, itemC]
          = X ++ itemC :: { itemA with parentId := itemC.parentId } :: Y
        ∧ X ++ itemC :: Y = [itemA, itemB, itemC].filter (fun e => !(e.id == "a")))
      ∧ moveMenuItem "a" "c" 1 [itemA, itemB, itemC] = [itemB, itemC, itemA] :=
  moveEntry_after_correct "a" "c" [itemA, itemB, itemC] [] [itemB] [] itemA itemC
    (Or.inl rfl) (by decide) (by decide) (by decide)

/-- C10: dragging an entry onto or after itself is always a no-op — the lookup
reduce identifies the drop target only among entries other than the dragged
one (`else if`), so with equal keys the drop target is never found. -/
theorem moveEntry_self_noop (dk : String) (pos : Int) (l : List ApiMenuData) :
    moveMenuItem dk dk pos l = l := by
  have h := (findFrom_self_drop dk l 0 ⟨none, none, none, none⟩).1
  unfold moveMenuItem
  rcases hfind : findFrom dk dk 0 ⟨none, none, none, none⟩ l with ⟨dm, om, di, oi⟩
  rw [hfind] at h
  simp only at h
  subst h
  cases dm <;> cases di <;> cases oi <;> rfl

/-- C9: `moveMenuItem` degrades to a no-op returning the prior catalog
unchanged whenever the drag id is not found, whenever the drop id is not found,
whenever the drop target is not a folder and the drop position is `onto` (0),
and for the unhandled drop position `-1`. -/
theorem moveEntry_noop_on_lookup_failure (dk pk : String) (pos : Int) (l : List ApiMenuData) :
    ((∀ e ∈ l, e.id ≠ dk) → moveMenuItem dk pk pos l = l)
      ∧ ((∀ e ∈ l, e.id ≠ pk) → moveMenuItem dk pk pos l = l)
      ∧ ((∀ e ∈ l, e.id = pk → isMenuFolder e.type = false) → moveMenuItem dk pk 0 l = l)
      ∧ moveMenuItem dk pk (-1) l = l := by
  refine ⟨?_, ?_, ?_, ?_⟩
  · intro h
    have hd := findFrom_drag_none dk pk l 0 ⟨none, none, none, none⟩ h
    unfold moveMenuItem
    rcases hfind : findFrom dk pk 0 ⟨none, none, none, none⟩ l with ⟨dm, om, di, oi⟩
    rw [hfind] at hd
    simp only at hd
    subst hd
    cases om <;> cases di <;> cases oi <;> rfl
  · intro h
    have hd := findFrom_drop_none dk pk l 0 ⟨none, none, none, none⟩ h
    unfold moveMenuItem
    rcases hfind : findFrom dk pk 0 ⟨none, none, none, none⟩ l with ⟨dm, om, di, oi⟩
    rw [hfind] at hd
    simp only at hd
    subst hd
    cases dm <;> cases di <;> cases oi <;> rfl
  · intro h
    unfold moveMenuItem
    rcases hfind : findFrom dk pk 0 ⟨none, none, none, none⟩ l with ⟨dm, om, di, oi⟩
    cases dm with
    | none => rfl
    | some m1 =>
      cases om with
      | none => cases di <;> cases oi <;> rfl
      | some m2 =>
        cases di with
        | none => cases oi <;> rfl
        | some i1 =>
          cases oi with
          | none => rfl
          | some i2 =>
            have hmem := findFrom_drop_mem dk pk l 0 ⟨none, none, none, none⟩ m2
              (by rw [hfind])
            rcases hmem with hmem | hmem
            · exact absurd hmem (by simp)
            · have hfold : isMenuFolder m2.type = false := h m2 hmem.1 hmem.2
              dsimp only
              rw [if_neg (by simp [hfold]), if_neg (by decide)]
  · unfold moveMenuItem
    rcases hfind : findFrom dk pk 0 ⟨none, none, none, none⟩ l with ⟨dm, om, di, oi⟩
    cases dm <;> cases om <;> cases di <;> cases oi <;>
      first
        | rfl
        | (dsimp only
           rw [if_neg (fun hcon => absurd hcon.2 (by decide)), if_neg (by decide)])

/-- Witness for `moveEntry_noop_on_lookup_failure`: each no-op case at a
concrete catalog. -/
theorem moveEntry_noop_on_lookup_failure_witness :
    moveMenuItem "zz" "c" 1 [itemA, itemB, itemC] = [itemA, itemB, itemC]
      ∧ moveMenuItem "a" "zz" 1 [itemA, itemB, itemC] = [itemA, itemB, itemC]
      ∧ moveMenuItem "a" "c" 0 [itemA, itemB, itemC] = [itemA, itemB, itemC]
      ∧ moveMenuItem "a" "c" (-1) [itemA, itemB, itemC] = [itemA, itemB, itemC] :=
  ⟨(moveEntry_noop_on_lookup_failure "zz" "c" 1 [itemA, itemB, itemC]).1 (by decide),
   (moveEntry_noop_on_lookup_failure "a" "zz" 1 [itemA, itemB, itemC]).2.1 (by decide),
   (moveEntry_noop_on_lookup_failure "a" "c" 0 [itemA, itemB, itemC]).2.2.1 (by decide),
   (moveEntry_noop_on_lookup_failure "a" "c" (-1) [itemA, itemB, itemC]).2.2.2⟩

/-! ### Lemmas about the removal fold -/

theorem removeFold_menu (g : Nat → String) (rid : String) (L : List ApiMenuData)
    (a : GlobalState) :
    (L.foldl (removeStep g rid) a).menu
      = a.menu ++ L.filter (fun x => !shouldRemove rid x) := by
  induction L generalizing a with
  | nil => simp
  | cons x xs ih =>
      simp only [List.foldl_cons, List.filter_cons]
      rw [ih]
      by_cases hx : shouldRemove rid x = true
      · simp [removeStep, hx]
      · simp [removeStep, hx]

theorem removeFold_recycle (g : Nat → String) (rid : String) (L : List ApiMenuData)
    (a : GlobalState) :
    ((L.foldl (removeStep g rid) a).recycle, (L.foldl (removeStep g rid) a).nextId)
      = (L.filter (shouldRemove rid)).foldl (enqueueStep g rid) (a.recycle, a.nextId) := by
  induction L generalizing a with
  | nil => rfl
  | cons x xs ih =>
      simp only [List.foldl_cons, List.filter_cons]
      rw [ih]
      by_cases hx : shouldRemove rid x = true
      · simp [removeStep, hx]
      · simp [removeStep, hx]

theorem removeMenuItem_menu (g : Nat → String) (rid : String) (s : GlobalState) :
    (removeMenuItem g rid s).menu = s.menu.filter (fun x => !shouldRemove rid x) := by
  unfold removeMenuItem
  rw [removeFold_menu]
  simp

theorem removeMenuItem_recycle (g : Nat → String) (rid : String) (s : GlobalState) :
    ((removeMenuItem g rid s).recycle, (removeMenuItem g rid s).nextId)
      = (s.menu.filter (shouldRemove rid)).foldl (enqueueStep g rid)
          (s.recycle, s.nextId) := by
  unfold removeMenuItem
  rw [removeFold_recycle]

/-- C4: `removeMenuItem rid` removes exactly the entries whose id or parent id
equals `rid` (a single-level cascade), keeping every other entry in order;
afterwards no live entry has that id or that parent id. -/
theorem removeEntry_cascade_spec (g : Nat → String) (rid : String) (s : GlobalState) :
    (removeMenuItem g rid s).menu
        = s.menu.filter (fun x => !(x.id == rid || x.parentId == some rid))
      ∧ (∀ e ∈ (removeMenuItem g rid s).menu, e.id ≠ rid ∧ e.parentId ≠ some rid)
      ∧ (∀ e ∈ s.menu, e.id ≠ rid → e.parentId ≠ some rid →
          e ∈ (removeMenuItem g rid s).menu) := by
  have hm := removeMenuItem_menu g rid s
  refine ⟨by simpa [shouldRemove] using hm, ?_, ?_⟩
  · intro e he
    rw [hm] at he
    have hp := List.of_mem_filter he
    simp [shouldRemove] at hp
    exact hp
  · intro e he h1 h2
    rw [hm]
    exact List.mem_filter.mpr ⟨he, by simp [shouldRemove, h1, h2]⟩

/-- Witness for `removeEntry_cascade_spec`: removing the leaf `"2"` keeps the
unrelated folder `"1"`. -/
theorem removeEntry_cascade_spec_witness :
    folder1 ∈ (removeMenuItem gen0 "2" stateA).menu :=
  (removeEntry_cascade_spec gen0 "2" stateA).2.2 folder1 (by decide) (by decide) (by decide)

/-- C5: Scenario A — removing folder `"1"` empties the catalog, creates no
record for the folder, and puts exactly one record for entry `"2"` into the
Http category — together with the general classification facts: an entry is
routed to the Http category exactly when its catalog type is Http or Markdown
(the Markdown remap), folders are never routed, kinds outside the
Http/Schema/Request/Markdown catalog types are never routed, and an unrouted
(ineligible) removed entry leaves the recycle store untouched. -/
theorem removeEntry_scenarioA_classification :
    (removeMenuItem gen0 "1" stateA).menu = []
      ∧ (removeMenuItem gen0 "1" stateA).recycle.http
          = [{ id := "r0", expiredAt := "30天", creator := creatorName, deletedItem := http2 }]
      ∧ (removeMenuItem gen0 "1" stateA).recycle.schema = []
      ∧ (removeMenuItem gen0 "1" stateA).recycle.request = []
      ∧ (∀ t, routeCategory t = some RecycleCatalogType.http
          ↔ (getCatalogType t = CatalogType.chttp ∨ getCatalogType t = CatalogType.cmarkdown))
      ∧ (∀ t, isMenuFolder t = true → routeCategory t = none)
      ∧ (∀ t, routeCategory t = none
          ↔ (getCatalogType t ≠ CatalogType.chttp ∧ getCatalogType t ≠ CatalogType.cschema
              ∧ getCatalogType t ≠ CatalogType.crequest
              ∧ getCatalogType t ≠ CatalogType.cmarkdown))
      ∧ (∀ (g : Nat → String) (rid : String) (p : RecycleData × Nat) (item : ApiMenuData),
          routeCategory item.type = none → enqueueStep g rid p item = p) := by
  refine ⟨by decide, by decide, by decide, by decide, ?_, ?_, ?_, ?_⟩
  · intro t
    cases t <;> decide
  · intro t
    cases t <;> decide
  · intro t
    cases t <;> decide
  · intro g rid p item h
    unfold enqueueStep
    rw [h]

/-- Witness for `removeEntry_scenarioA_classification`: a folder is not routed
and its removal leaves the recycle store untouched. -/
theorem removeEntry_scenarioA_classification_witness :
    routeCategory folder1.type = none
      ∧ enqueueStep gen0 "1" (emptyRecycle, 0) folder1 = (emptyRecycle, 0) :=
  ⟨removeEntry_scenarioA_classification.2.2.2.2.2.1 folder1.type (by decide),
   removeEntry_scenarioA_classification.2.2.2.2.2.2.2 gen0 "1" (emptyRecycle, 0) folder1
     (by decide)⟩

/-- C2 fails on the code: starting from the empty state, the call sequence
`add p (folder); add c (child of p); removeMenuItem "c"; add c again;
removeMenuItem "p"` leaves the Http recycle category with two records whose
`deletedItem.id` is `"c"` — the duplicate check of source line 100 compares
existing records against the removal argument (`"p"`), not against the removed
child's own id, so the cascade enqueue is not idempotent per `deletedItem.id`. -/
theorem recycle_duplicate_on_cascade :
    ((removeMenuItem gen0 "p"
        (addMenuItem httpC
          (removeMenuItem gen0 "c"
            (addMenuItem httpC (addMenuItem folderP state0))))).recycle.http.map
      (fun r => r.deletedItem.id)) = ["c", "c"] := by decide

/-! ### Lemmas about the restore fold -/

theorem restoreFold_spec (rid : String) (L : List RecycleDataItem)
    (aL : List RecycleDataItem) (m : List ApiMenuData) :
    L.foldl (restoreStep rid) (aL, m)
      = (aL ++ L.filter (fun r => !(r.id == rid)),
         (L.filter (fun r => r.id == rid)).foldl reinsert m) := by
  induction L generalizing aL m with
  | nil => simp
  | cons r rs ih =>
      by_cases hr : r.id = rid
      · simp only [List.foldl_cons, restoreStep, if_pos hr, List.filter_cons]
        rw [ih]
        simp [hr]
      · simp only [List.foldl_cons, restoreStep, if_neg hr, List.filter_cons]
        rw [ih]
        simp [hr]

theorem getL_setL_same (d : RecycleData) (ct : RecycleCatalogType)
    (l : List RecycleDataItem) : (d.setL ct l).getL ct = l := by
  cases ct <;> rfl

theorem restoreMenuItem_eq (rid : String) (ct : RecycleCatalogType) (s : GlobalState) :
    restoreMenuItem rid ct s
      = { s with
          menu := ((s.recycle.getL ct).filter (fun r => r.id == rid)).foldl reinsert s.menu,
          recycle :=
            s.recycle.setL ct ((s.recycle.getL ct).filter (fun r => !(r.id == rid))) } := by
  unfold restoreMenuItem
  rw [restoreFold_spec]
  simp

theorem reinsertFold_noop (m : List ApiMenuData) (L : List RecycleDataItem)
    (h : ∀ r ∈ L, ∃ e ∈ m, e.id = r.deletedItem.id) : L.foldl reinsert m = m := by
  induction L with
  | nil => rfl
  | cons r rs ih =>
      have hr : reinsert m r = m := by
        rcases h r (by simp) with ⟨e, he, heq⟩
        unfold reinsert
        rw [if_pos (List.any_eq_true.mpr ⟨e, he, by simp [heq]⟩)]
      simp only [List.foldl_cons, hr]
      exact ih (fun x hx => h x (by simp [hx]))

/-- C3 as stated fails on the code: restoring record `"r1"` while an entry
with the same id is already live removes the record from the Http category yet
does not reinsert its `deletedItem` — the snapshot `ghostX` never reaches the
catalog, so a record is destroyed without its snapshot moving back. -/
theorem restore_removes_without_reinsert :
    (restoreMenuItem "r1" RecycleCatalogType.http stateC).recycle.http = []
      ∧ (restoreMenuItem "r1" RecycleCatalogType.http stateC).menu = [liveX]
      ∧ ghostX ∉ (restoreMenuItem "r1" RecycleCatalogType.http stateC).menu := by
  decide

/-- C3 amended: `restoreMenuItem rid ct` always removes every record with id
`rid` from the `ct` category; when exactly one record matches, its
`deletedItem` is reinserted if and only if no live entry with the same id
exists — so a record can be destroyed without reinsertion, namely when a live
entry with the snapshot's id is already present. -/
theorem restore_record_spec (rid : String) (ct : RecycleCatalogType) (s : GlobalState)
    (r : RecycleDataItem) :
    ((restoreMenuItem rid ct s).recycle.getL ct
        = (s.recycle.getL ct).filter (fun x => !(x.id == rid)))
      ∧ ((s.recycle.getL ct).filter (fun x => x.id == rid) = [r] →
          ((∃ e ∈ s.menu, e.id = r.deletedItem.id) →
              (restoreMenuItem rid ct s).menu = s.menu)
            ∧ ((¬ ∃ e ∈ s.menu, e.id = r.deletedItem.id) →
              (restoreMenuItem rid ct s).menu = s.menu ++ [r.deletedItem])) := by
  constructor
  · rw [restoreMenuItem_eq]
    exact getL_setL_same _ _ _
  · intro hfilter
    constructor
    · intro hex
      rw [restoreMenuItem_eq]
      dsimp only
      rw [hfilter]
      simp only [List.foldl_cons, List.foldl_nil]
      unfold reinsert
      rcases hex with ⟨e, he, heq⟩
      rw [if_pos (List.any_eq_true.mpr ⟨e, he, by simp [heq]⟩)]
    · intro hnex
      rw [restoreMenuItem_eq]
      dsimp only
      rw [hfilter]
      simp only [List.foldl_cons, List.foldl_nil]
      unfold reinsert
      rw [if_neg (fun hany => hnex (by
        rcases List.any_eq_true.mp hany with ⟨e, he, hbeq⟩
        exact ⟨e, he, by simpa using hbeq⟩))]

/-- Witness for `restore_record_spec`: the record is removed while the catalog
stays unchanged because an entry with the snapshot's id is already live. -/
theorem restore_record_spec_witness :
    (restoreMenuItem "r1" RecycleCatalogType.http stateC).recycle.getL
        RecycleCatalogType.http
        = (stateC.recycle.getL RecycleCatalogType.http).filter (fun x => !(x.id == "r1"))
      ∧ (restoreMenuItem "r1" RecycleCatalogType.http stateC).menu = stateC.menu :=
  ⟨(restore_record_spec "r1" RecycleCatalogType.http stateC recR1).1,
   ((restore_record_spec "r1" RecycleCatalogType.http stateC recR1).2 (by decide)).1
     ⟨liveX, by decide, by decide⟩⟩

/-- C7: restore is idempotent with respect to the catalog: the snapshot is
appended at the end only when no live entry with its id exists; when every
matching record's snapshot id is already live the catalog is unchanged; and a
second identical restore leaves the catalog exactly as after the first. -/
theorem restoreEntry_idempotent (rid : String) (ct : RecycleCatalogType) (s : GlobalState) :
    ((∀ r ∈ s.recycle.getL ct, r.id = rid → ∃ e ∈ s.menu, e.id = r.deletedItem.id) →
        (restoreMenuItem rid ct s).menu = s.menu)
      ∧ (∀ r, (s.recycle.getL ct).filter (fun x => x.id == rid) = [r] →
          (¬ ∃ e ∈ s.menu, e.id = r.deletedItem.id) →
          (restoreMenuItem rid ct s).menu = s.menu ++ [r.deletedItem])
      ∧ (restoreMenuItem rid ct (restoreMenuItem rid ct s)).menu
          = (restoreMenuItem rid ct s).menu := by
  refine ⟨?_, ?_, ?_⟩
  · intro h
    rw [restoreMenuItem_eq]
    dsimp only
    apply reinsertFold_noop
    intro r hr
    have hmem := List.mem_filter.mp hr
    exact h r hmem.1 (by simpa using hmem.2)
  · intro r hfilter hnex
    rw [restoreMenuItem_eq]
    dsimp only
    rw [hfilter]
    simp only [List.foldl_cons, List.foldl_nil]
    unfold reinsert
    rw [if_neg (fun hany => hnex (by
      rcases List.any_eq_true.mp hany with ⟨e, he, hbeq⟩
      exact ⟨e, he, by simpa using hbeq⟩))]
  · rw [restoreMenuItem_eq rid ct (restoreMenuItem rid ct s)]
    dsimp only
    have h1 : (restoreMenuItem rid ct s).recycle.getL ct
        = (s.recycle.getL ct).filter (fun x => !(x.id == rid)) := by
      rw [restoreMenuItem_eq]
      exact getL_setL_same _ _ _
    rw [h1, List.filter_filter]
    have h2 : (s.recycle.getL ct).filter (fun a => (a.id == rid) && !(a.id == rid)) = [] := by
      apply List.filter_eq_nil_iff.mpr
      intro a ha
      simp
    rw [h2]
    rfl

/-- Witness for `restoreEntry_idempotent`: at `stateC` the guarded restore
leaves the catalog unchanged, and a repeated restore changes nothing. -/
theorem restoreEntry_idempotent_witness :
    (restoreMenuItem "r1" RecycleCatalogType.http stateC).menu = stateC.menu
      ∧ (restoreMenuItem "r1" RecycleCatalogType.http
            (restoreMenuItem "r1" RecycleCatalogType.http stateC)).menu
          = (restoreMenuItem "r1" RecycleCatalogType.http stateC).menu :=
  ⟨(restoreEntry_idempotent "r1" RecycleCatalogType.http stateC).1 (by decide),
   (restoreEntry_idempotent "r1" RecycleCatalogType.http stateC).2.2⟩

/-! ### Lemmas about payload lookup and the update merge -/

theorem plookup_append (p₁ p₂ : Payload) (k : String) :
    plookup (p₁ ++ p₂) k = (plookup p₁ k).or (plookup p₂ k) := by
  unfold plookup
  rw [List.find?_append]
  cases List.find? (fun kv => kv.1 == k) p₁ <;> simp

theorem plookup_cons_self (p : Payload) (k v : String) :
    plookup ((k, v) :: p) k = some v := by
  unfold plookup
  rw [List.find?_cons_of_pos _ (by simp)]
  rfl

theorem plookup_cons_ne (p : Payload) (k k' v : String) (h : k' ≠ k) :
    plookup ((k, v) :: p) k' = plookup p k' := by
  unfold plookup
  rw [List.find?_cons_of_neg _ (by simp [Ne.symm h])]

/-- C6: `updateMenuItem` replaces exactly the entry matching the update's id by
the merged entry and keeps every other entry; the merged entry keeps its id,
its top-level name falls back to the existing name when the update omits it,
its payload is the one-level merge of the existing then the incoming payload
for every key except `name`, whose value is the JS `rest.name || item.name`
fallback; when the update omits the name both the entry name and the payload
name key keep the existing entry name; and the whole update is a no-op when no
entry matches the id. -/
theorem updateEntry_merge_spec (u : UpdateInput) (X Y : List ApiMenuData)
    (item : ApiMenuData) (hX : ∀ e ∈ X, e.id ≠ u.id) (hY : ∀ e ∈ Y, e.id ≠ u.id)
    (hid : item.id = u.id) :
    updateMenuItem u (X ++ item :: Y) = X ++ mergeItem item u :: Y
      ∧ (mergeItem item u).id = item.id
      ∧ (mergeItem item u).name = (u.name).getD item.name
      ∧ plookup (mergeItem item u).data "name" = some (jsOr u.name item.name)
      ∧ (∀ k, k ≠ "name" →
          plookup (mergeItem item u).data k
            = ((plookup ((u.data).getD []) k).or (plookup item.data k)))
      ∧ (u.name = none →
          (mergeItem item u).name = item.name
            ∧ plookup (mergeItem item u).data "name" = some item.name)
      ∧ (∀ L : List ApiMenuData, (∀ e ∈ L, e.id ≠ u.id) → updateMenuItem u L = L) := by
  have noop : ∀ L : List ApiMenuData, (∀ e ∈ L, e.id ≠ u.id) → updateMenuItem u L = L := by
    intro L h
    unfold updateMenuItem
    have hcong : L.map (fun it => if it.id = u.id then mergeItem it u else it) = L.map id :=
      List.map_congr_left (fun e he => by rw [if_neg (h e he)]; rfl)
    rw [hcong, List.map_id]
  have h4 : plookup (mergeItem item u).data "name" = some (jsOr u.name item.name) :=
    plookup_cons_self _ _ _
  refine ⟨?_, rfl, rfl, h4, ?_, ?_, noop⟩
  · unfold updateMenuItem
    rw [List.map_append, List.map_cons, if_pos hid]
    have e1 := noop X hX
    have e2 := noop Y hY
    unfold updateMenuItem at e1 e2
    rw [e1, e2]
  · intro k hk
    show plookup (("name", jsOr u.name item.name) :: ((u.data).getD [] ++ item.data)) k = _
    rw [plookup_cons_ne _ _ _ _ hk, plookup_append]
  · intro hn
    refine ⟨?_, ?_⟩
    · show (u.name).getD item.name = item.name
      rw [hn]
      rfl
    · rw [h4, hn]
      rfl

/-- Witness for `updateEntry_merge_spec`: a concrete update without a top-level
name merges the payload and forces the payload name key back to the entry
name. -/
theorem updateEntry_merge_spec_witness :
    updateMenuItem upd0 [itemA, itemB] = [mergeItem itemA upd0, itemB]
      ∧ plookup (mergeItem itemA upd0).data "name" = some (jsOr upd0.name itemA.name)
      ∧ plookup (mergeItem itemA upd0).data "k"
          = ((plookup ((upd0.data).getD []) "k").or (plookup itemA.data "k")) :=
  ⟨(updateEntry_merge_spec upd0 [] [itemB] itemA (by simp) (by decide) (by decide)).1,
   (updateEntry_merge_spec upd0 [] [itemB] itemA (by simp) (by decide) (by decide)).2.2.2.1,
   (updateEntry_merge_spec upd0 [] [itemB] itemA (by simp) (by decide)
     (by decide)).2.2.2.2.1 "k" (by decide)⟩

/-! ### Lemmas about the enqueue fold (round-trip support) -/

theorem getL_setL (d : RecycleData) (c c' : RecycleCatalogType) (l : List RecycleDataItem) :
    (d.setL c l).getL c' = if c' = c then l else d.getL c' := by
  cases c <;> cases c' <;> simp [RecycleData.setL, RecycleData.getL]

theorem filter_none {α : Type} (p : α → Bool) (L : List α) (h : ∀ x ∈ L, p x = false) :
    L.filter p = [] :=
  List.filter_eq_nil_iff.mpr (fun a ha => by simp [h a ha])

theorem enqueueStep_eq (g : Nat → String) (rid : String) (p : RecycleData × Nat)
    (x : ApiMenuData) :
    enqueueStep g rid p x = p
      ∨ ∃ rc', routeCategory x.type = some rc'
          ∧ (p.1.getL rc').any (fun r => r.deletedItem.id == rid) = false
          ∧ enqueueStep g rid p x
              = (p.1.setL rc' ({ id := g p.2, expiredAt := "30天", creator := creatorName,
                                 deletedItem := x } :: p.1.getL rc'), p.2 + 1) := by
  rcases hrt : routeCategory x.type with _ | rc'
  · left
    unfold enqueueStep
    rw [hrt]
  · by_cases hal : (p.1.getL rc').any (fun r => r.deletedItem.id == rid) = true
    · left
      unfold enqueueStep
      rw [hrt]
      dsimp only
      rw [if_pos hal]
    · right
      refine ⟨rc', rfl, by simpa using hal, ?_⟩
      unfold enqueueStep
      rw [hrt]
      dsimp only
      rw [if_neg hal]

theorem enqFold_out (g : Nat → String) (rid : String) (L : List ApiMenuData)
    (rd : RecycleData) (n : Nat) (ct : RecycleCatalogType) :
    n ≤ (L.foldl (enqueueStep g rid) (rd, n)).2
      ∧ ∃ N, (L.foldl (enqueueStep g rid) (rd, n)).1.getL ct = N ++ rd.getL ct
          ∧ ∀ r ∈ N, (∃ x ∈ L, r.deletedItem = x)
              ∧ ∃ m, n ≤ m ∧ m < (L.foldl (enqueueStep g rid) (rd, n)).2 ∧ r.id = g m := by
  induction L generalizing rd n with
  | nil =>
      refine ⟨Nat.le_refl n, [], rfl, ?_⟩
      intro r hr
      simp at hr
  | cons x xs ih =>
      simp only [List.foldl_cons]
      rcases enqueueStep_eq g rid (rd, n) x with heq | ⟨rc', hrt, hal, heq⟩
      · rw [heq]
        obtain ⟨h1, N, hN, hrec⟩ := ih rd n
        refine ⟨h1, N, hN, ?_⟩
        intro r hr
        obtain ⟨⟨y, hy, hdel⟩, hm⟩ := hrec r hr
        exact ⟨⟨y, by simp [hy], hdel⟩, hm⟩
      · rw [heq]
        dsimp only at heq ⊢
        obtain ⟨h1, N, hN, hrec⟩ :=
          ih (rd.setL rc' ({ id := g n, expiredAt := "30天", creator := creatorName,
                             deletedItem := x } :: rd.getL rc')) (n + 1)
        refine ⟨Nat.le_trans (Nat.le_succ n) h1, ?_⟩
        rw [getL_setL] at hN
        by_cases hct : ct = rc'
        · rw [if_pos hct] at hN
          subst hct
          refine ⟨N ++ [{ id := g n, expiredAt := "30天", creator := creatorName,
                          deletedItem := x }], by simpa using hN, ?_⟩
          intro r hr
          rcases List.mem_append.mp hr with hr | hr
          · obtain ⟨⟨y, hy, hdel⟩, m, hm1, hm2, hm3⟩ := hrec r hr
            exact ⟨⟨y, by simp [hy], hdel⟩, m, Nat.le_trans (Nat.le_succ n) hm1, hm2, hm3⟩
          · have hr' : r = { id := g n, expiredAt := "30天", creator := creatorName,
                             deletedItem := x } := by simpa using hr
            subst hr'
            exact ⟨⟨x, by simp, rfl⟩, n, Nat.le_refl n,
              Nat.lt_of_lt_of_le (Nat.lt_succ_self n) h1, rfl⟩
        · rw [if_neg hct] at hN
          refine ⟨N, hN, ?_⟩
          intro r hr
          obtain ⟨⟨y, hy, hdel⟩, m, hm1, hm2, hm3⟩ := hrec r hr
          exact ⟨⟨y, by simp [hy], hdel⟩, m, Nat.le_trans (Nat.le_succ n) hm1, hm2, hm3⟩

theorem genRep_inj : ∀ m n : Nat, genRep m = genRep n → m = n := by
  intro m n h
  unfold genRep at h
  have hl : List.replicate m 'a' = List.replicate n 'a' := by injection h
  have := congrArg List.length hl
  simpa using this

/-- C8: round-trip — removing an entry of a recycle-eligible kind stores a full
value copy of it as some record's `deletedItem`, and restoring that record
reinserts exactly that entry into the catalog (at the end, not necessarily at
its original position).  Hypotheses: the entry is in the catalog, entries
before it do not share its id, the target category has no prior record with the
entry's id as `deletedItem.id`, the id generator is injective and its outputs
are fresh for the category. -/
theorem removeRestore_roundtrip (g : Nat → String) (s : GlobalState) (e : ApiMenuData)
    (X Y : List ApiMenuData) (rc : RecycleCatalogType)
    (hmenu : s.menu = X ++ e :: Y)
    (hX : ∀ x ∈ X, x.id ≠ e.id)
    (hrt : routeCategory e.type = some rc)
    (hold : ∀ r ∈ s.recycle.getL rc, r.deletedItem.id ≠ e.id)
    (hinj : ∀ m n, g m = g n → m = n)
    (hfresh : ∀ r ∈ s.recycle.getL rc, ∀ m, r.id ≠ g m) :
    ∃ r ∈ (removeMenuItem g e.id s).recycle.getL rc,
      r.deletedItem = e
        ∧ e ∈ (restoreMenuItem r.id rc (removeMenuItem g e.id s)).menu := by
  have hrec1 := removeMenuItem_recycle g e.id s
  have hR : s.menu.filter (shouldRemove e.id)
      = X.filter (shouldRemove e.id) ++ e :: Y.filter (shouldRemove e.id) := by
    rw [hmenu, List.filter_append, List.filter_cons_of_pos (by simp [shouldRemove])]
  rw [hR, List.foldl_append, List.foldl_cons] at hrec1
  obtain ⟨hn1, N₁, hN₁, hrecs₁⟩ :=
    enqFold_out g e.id (X.filter (shouldRemove e.id)) s.recycle s.nextId rc
  rcases hp : (X.filter (shouldRemove e.id)).foldl (enqueueStep g e.id)
      (s.recycle, s.nextId) with ⟨rd₁, n₁⟩
  rw [hp] at hrec1 hn1 hN₁ hrecs₁
  dsimp only at hn1 hN₁ hrecs₁
  have hcheck : (rd₁.getL rc).any (fun r => r.deletedItem.id == e.id) = false := by
    apply List.any_eq_false.mpr
    intro r hr
    rw [hN₁] at hr
    rcases List.mem_append.mp hr with hr | hr
    · obtain ⟨⟨y, hy, hdel⟩, -⟩ := hrecs₁ r hr
      have hyX : y ∈ X := List.mem_of_mem_filter hy
      simp [hdel, hX y hyX]
    · simp [hold r hr]
  have hstep_e : enqueueStep g e.id (rd₁, n₁) e
      = (rd₁.setL rc ({ id := g n₁, expiredAt := "30天", creator := creatorName,
                        deletedItem := e } :: rd₁.getL rc), n₁ + 1) := by
    unfold enqueueStep
    rw [hrt]
    dsimp only
    rw [if_neg (by simp [hcheck])]
  rw [hstep_e] at hrec1
  obtain ⟨hn3, N₂, hN₂, hrecs₂⟩ :=
    enqFold_out g e.id (Y.filter (shouldRemove e.id))
      (rd₁.setL rc ({ id := g n₁, expiredAt := "30天", creator := creatorName,
                      deletedItem := e } :: rd₁.getL rc)) (n₁ + 1) rc
  rcases hq : (Y.filter (shouldRemove e.id)).foldl (enqueueStep g e.id)
      (rd₁.setL rc ({ id := g n₁, expiredAt := "30天", creator := creatorName,
                      deletedItem := e } :: rd₁.getL rc), n₁ + 1) with ⟨rd₂, n₂⟩
  rw [hq] at hrec1 hn3 hN₂ hrecs₂
  dsimp only at hn3 hN₂ hrecs₂
  rw [getL_setL, if_pos rfl] at hN₂
  have hrm_rec : (removeMenuItem g e.id s).recycle = rd₂ := congrArg Prod.fst hrec1
  refine ⟨⟨g n₁, "30天", creatorName, e⟩, ?_, rfl, ?_⟩
  · rw [hrm_rec, hN₂]
    simp
  · rw [restoreMenuItem_eq]
    dsimp only
    have hfilter : ((removeMenuItem g e.id s).recycle.getL rc).filter
        (fun x => x.id == g n₁) = [⟨g n₁, "30天", creatorName, e⟩] := by
      rw [hrm_rec, hN₂, hN₁]
      rw [List.filter_append, List.filter_cons_of_pos (by simp), List.filter_append]
      rw [filter_none _ N₂ ?n2, filter_none _ N₁ ?n1,
        filter_none _ (s.recycle.getL rc) ?old]
      · simp
      case n2 =>
        intro r hr
        obtain ⟨-, m, hm1, -, hm3⟩ := hrecs₂ r hr
        have hmne : m ≠ n₁ := by omega
        simp [hm3]
        intro hgm
        exact hmne (hinj m n₁ hgm)
      case n1 =>
        intro r hr
        obtain ⟨-, m, -, hm2, hm3⟩ := hrecs₁ r hr
        have hmne : m ≠ n₁ := by omega
        simp [hm3]
        intro hgm
        exact hmne (hinj m n₁ hgm)
      case old =>
        intro r hr
        simp
        intro hgm
        exact hfresh r hr n₁ hgm
    rw [hfilter]
    simp only [List.foldl_cons, List.foldl_nil]
    unfold reinsert
    rw [if_neg ?hany]
    · simp
    case hany =>
      intro hany
      rcases List.any_eq_true.mp hany with ⟨z, hz, hbz⟩
      rw [removeMenuItem_menu] at hz
      have hzf := List.of_mem_filter hz
      simp [shouldRemove] at hzf hbz
      exact hzf.1 hbz

/-- Witness for `removeRestore_roundtrip`: removing the http leaf of Scenario A
and restoring the produced record brings the entry back into the catalog. -/
theorem removeRestore_roundtrip_witness :
    ∃ r ∈ (removeMenuItem genRep http2.id stateA).recycle.getL RecycleCatalogType.http,
      r.deletedItem = http2
        ∧ http2 ∈ (restoreMenuItem r.id RecycleCatalogType.http
            (removeMenuItem genRep http2.id stateA)).menu :=
  removeRestore_roundtrip genRep stateA http2 [folder1] [] RecycleCatalogType.http
    rfl (by decide) (by decide) (by decide) genRep_inj
    (by intro r hr; simp [stateA, emptyRecycle, RecycleData.getL] at hr)
